import Mathlib

/-!
Verification of the wrecv transfer-session core against its specification.

Shallow embedding conventions:
* Rust `u8` byte sequences are `List Nat` (each element intended `< 256`).
* Rust `String`/`str` values are modelled either as lists of Unicode scalar
  values (`List Nat`, each a valid scalar value) when character structure
  matters, or as byte lists when only byte lengths and ASCII bytes matter
  (cookie rendering), matching how the source uses them.
* External collaborators (libcurl, httparse, cookie_store, the caller's
  handler) appear as parameters, never as stubs of repository code.
-/

namespace Wrecv

/-! ## Byte-level helpers (src/http/parse.rs) -/

/-- `u8::is_ascii_whitespace`: space, horizontal tab, line feed, form feed,
carriage return. -/
def isAsciiWhitespace (b : Nat) : Bool :=
  b = 0x20 || b = 0x09 || b = 0x0A || b = 0x0C || b = 0x0D

/-- Rust `slice::split_inclusive` with separator `b'\n'`: chunks keep the
terminating newline; the final chunk may lack one; an empty slice yields no
chunks. -/
def splitInclusive : List Nat → List (List Nat)
  | [] => []
  | b :: rest =>
    if b = 0x0A then
      [b] :: splitInclusive rest
    else
      match splitInclusive rest with
      | [] => [[b]]
      | l :: ls => (b :: l) :: ls

/-- The loop condition of `scan_header_boundary` (src/http/parse.rs line 11):
`line.iter().all(|v| v.is_ascii_whitespace()) && line.ends_with(&[b'\n'])`. -/
def isTerminatorLine (line : List Nat) : Bool :=
  line.all isAsciiWhitespace && line.getLast? = some 0x0A

/-- Loop body of `scan_header_boundary` (src/http/parse.rs lines 6-14):
walk the inclusive lines, keeping a running byte index; return the index
just past the first line that is entirely ASCII whitespace and ends with a
newline. -/
def scanHeaderBoundaryGo : Nat → List (List Nat) → Option Nat
  | _, [] => none
  | index, line :: rest =>
    if isTerminatorLine line then
      some (index + line.length)
    else
      scanHeaderBoundaryGo (index + line.length) rest

/-- `scan_header_boundary` (src/http/parse.rs lines 5-17). -/
def scan_header_boundary (data : List Nat) : Option Nat :=
  scanHeaderBoundaryGo 0 (splitInclusive data)

/-! ## Cookie rendering (src/client/cookie.rs) -/

/-- `MAX_HEADER_VALUE_LEN` (src/client/cookie.rs line 11). -/
def MAX_HEADER_VALUE_LEN : Nat := 4096

/-- One iteration of the loop in `format_client_header`
(src/client/cookie.rs lines 69-85).  Strings are byte lists; `0x3B 0x20`
is `"; "`, `0x3D` is `'='`, `0x22` is `'"'`, `0x20` is `' '`.  The Rust
body mutates `buf` in place (separator if non-empty, then name, `'='`,
then the value quoted when it contains a space); here the same appends are
written as one expression. -/
def formatClientHeaderStep (maxLen : Nat) (buf : List Nat)
    (cookie : List Nat × List Nat) : List Nat :=
  if buf.length + cookie.1.length + cookie.2.length + 4 ≤ maxLen then
    (if buf.isEmpty then buf else buf ++ [0x3B, 0x20]) ++ cookie.1 ++ [0x3D] ++
      (if 0x20 ∈ cookie.2 then [0x22] ++ cookie.2 ++ [0x22] else cookie.2)
  else
    buf

/-- `format_client_header` (src/client/cookie.rs lines 63-88). -/
def format_client_header (cookies : List (List Nat × List Nat))
    (maxLen : Nat) : List Nat :=
  cookies.foldl (formatClientHeaderStep maxLen) []

/-- `CookieJar::get_request_string` (src/client/cookie.rs lines 29-36):
an active jar renders the cookies the external store yields for the URL
through `format_client_header` with the 4096-byte budget; a disabled jar
(store absent) yields the empty string. -/
def get_request_string (store : Option (List (List Nat × List Nat))) : List Nat :=
  match store with
  | some cookies => format_client_header cookies MAX_HEADER_VALUE_LEN
  | none => []

/-! ## Header field model (src/http/common.rs) -/

/-- `u8::to_ascii_lowercase`, as used by `String::to_ascii_lowercase` in
`FieldName::new`: ASCII capital letters gain 0x20, all other code points
are unchanged. -/
def asciiLowercaseChar (c : Nat) : Nat :=
  if 0x41 ≤ c ∧ c ≤ 0x5A then c + 0x20 else c

/-- `FieldName` (src/http/common.rs lines 156-160): the original string and
its normalized (ASCII-lowercased) form.  Strings are lists of Unicode
scalar values. -/
structure FieldName where
  inner : List Nat
  normalized : List Nat
deriving DecidableEq, Repr

/-- `FieldName::new` (src/http/common.rs lines 162-168). -/
def FieldName.new (name : List Nat) : FieldName :=
  { inner := name, normalized := name.map asciiLowercaseChar }

/-- `PartialEq for FieldName` (src/http/common.rs lines 207-211): equality
is on the normalized form only. -/
def FieldName.beq (a b : FieldName) : Bool := a.normalized == b.normalized

/-- `HeaderFields` (src/http/common.rs lines 62-65): a vector of name-value
pairs.  The list operations never inspect the value, so the value type is a
parameter; `FieldValue` below instantiates it. -/
abbrev HeaderFields (α : Type) : Type := List (FieldName × α)

/-- `HeaderFields::append` (src/http/common.rs lines 122-124). -/
def HeaderFields.append {α : Type} (fields : HeaderFields α) (key : FieldName)
    (value : α) : HeaderFields α :=
  fields ++ [(key, value)]

/-- `HeaderFields::remove` (src/http/common.rs lines 126-129):
`retain(|(k, _v)| k != &key)`. -/
def HeaderFields.remove {α : Type} (fields : HeaderFields α) (key : FieldName) :
    HeaderFields α :=
  fields.filter (fun kv => !(kv.1.beq key))

/-- `Iterator::position`, as used by `HeaderFields::insert`
(src/http/common.rs line 114). -/
def listPosition {α : Type} (p : α → Bool) : List α → Option Nat
  | [] => none
  | x :: xs => if p x then some 0 else (listPosition p xs).map (· + 1)

/-- `HeaderFields::insert` (src/http/common.rs lines 111-120): find the
first position whose key compares equal, remove all entries with that key,
re-insert the new pair at that position; append when the key is absent. -/
def HeaderFields.insert {α : Type} (fields : HeaderFields α) (key : FieldName)
    (value : α) : HeaderFields α :=
  match listPosition (fun kv => kv.1.beq key) fields with
  | some position => (fields.remove key).insertIdx position (key, value)
  | none => fields.append key value

/-- `HeaderFields::get` (src/http/common.rs lines 97-102): first value
whose key compares equal. -/
def HeaderFields.get {α : Type} (fields : HeaderFields α) (key : FieldName) :
    Option α :=
  fields.findSome? (fun kv => if kv.1.beq key then some kv.2 else none)

/-! ## UTF-8 validation model

`parse_utf8_escaped` (src/string/escape.rs) and the `FieldValue` byte
conversions (src/http/common.rs) are driven by `std::str::from_utf8`, whose
error reporting (`valid_up_to` / `error_len`) follows
`core::str::validations::run_utf8_validation`.  `utf8Step` classifies the
head of a byte list exactly as that loop classifies the sequence starting
at an offset: a decoded scalar value, an invalid sequence of 1-3 bytes
(`error_len = Some n`), or a truncated sequence at the end of the input
(`error_len = None`). -/

/-- A UTF-8 continuation byte, `0x80..=0xBF`. -/
def isUtf8Cont (b : Nat) : Bool := 0x80 ≤ b && b ≤ 0xBF

/-- Allowed second bytes of a three-byte sequence, per
`run_utf8_validation`: `(0xE0, 0xA0..=0xBF)`, `(0xE1..=0xEC, 0x80..=0xBF)`,
`(0xED, 0x80..=0x9F)`, `(0xEE..=0xEF, 0x80..=0xBF)`. -/
def utf8ThreeByteSecondOk (b b2 : Nat) : Bool :=
  (b = 0xE0 && 0xA0 ≤ b2 && b2 ≤ 0xBF) ||
  (0xE1 ≤ b && b ≤ 0xEC && 0x80 ≤ b2 && b2 ≤ 0xBF) ||
  (b = 0xED && 0x80 ≤ b2 && b2 ≤ 0x9F) ||
  (0xEE ≤ b && b ≤ 0xEF && 0x80 ≤ b2 && b2 ≤ 0xBF)

/-- Allowed second bytes of a four-byte sequence, per
`run_utf8_validation`: `(0xF0, 0x90..=0xBF)`, `(0xF1..=0xF3, 0x80..=0xBF)`,
`(0xF4, 0x80..=0x8F)`. -/
def utf8FourByteSecondOk (b b2 : Nat) : Bool :=
  (b = 0xF0 && 0x90 ≤ b2 && b2 ≤ 0xBF) ||
  (0xF1 ≤ b && b ≤ 0xF3 && 0x80 ≤ b2 && b2 ≤ 0xBF) ||
  (b = 0xF4 && 0x80 ≤ b2 && b2 ≤ 0x8F)

/-- Result of examining the head of a byte stream: empty input, a decoded
scalar value with the remaining bytes, an invalid sequence (the bytes an
`Utf8Error` with `error_len = Some n` covers) with the remaining bytes, or
a truncated sequence at the end of input (`error_len = None`). -/
inductive Utf8Step where
  | empty : Utf8Step
  | ch (c : Nat) (rest : List Nat) : Utf8Step
  | invalid (bad : List Nat) (rest : List Nat) : Utf8Step
  | incomplete (bad : List Nat) : Utf8Step
deriving DecidableEq, Repr

/-- Two-byte sequences, leading byte `0xC2..=0xDF`. -/
def utf8StepTwo : Nat → List Nat → Utf8Step
  | b, [] => .incomplete [b]
  | b, b2 :: rest2 =>
    if isUtf8Cont b2 then .ch ((b - 0xC0) * 0x40 + (b2 - 0x80)) rest2
    else .invalid [b] (b2 :: rest2)

/-- Third byte of a three-byte sequence (second byte already checked). -/
def utf8StepThreeTail : Nat → Nat → List Nat → Utf8Step
  | b, b2, [] => .incomplete [b, b2]
  | b, b2, b3 :: rest3 =>
    if isUtf8Cont b3 then
      .ch ((b - 0xE0) * 0x1000 + (b2 - 0x80) * 0x40 + (b3 - 0x80)) rest3
    else .invalid [b, b2] (b3 :: rest3)

/-- Three-byte sequences, leading byte `0xE0..=0xEF`. -/
def utf8StepThree : Nat → List Nat → Utf8Step
  | b, [] => .incomplete [b]
  | b, b2 :: rest2 =>
    if utf8ThreeByteSecondOk b b2 then utf8StepThreeTail b b2 rest2
    else .invalid [b] (b2 :: rest2)

/-- Fourth byte of a four-byte sequence. -/
def utf8StepFourTail2 : Nat → Nat → Nat → List Nat → Utf8Step
  | b, b2, b3, [] => .incomplete [b, b2, b3]
  | b, b2, b3, b4 :: rest4 =>
    if isUtf8Cont b4 then
      .ch ((b - 0xF0) * 0x40000 + (b2 - 0x80) * 0x1000 + (b3 - 0x80) * 0x40 +
        (b4 - 0x80)) rest4
    else .invalid [b, b2, b3] (b4 :: rest4)

/-- Third byte of a four-byte sequence (second byte already checked). -/
def utf8StepFourTail : Nat → Nat → List Nat → Utf8Step
  | b, b2, [] => .incomplete [b, b2]
  | b, b2, b3 :: rest3 =>
    if isUtf8Cont b3 then utf8StepFourTail2 b b2 b3 rest3
    else .invalid [b, b2] (b3 :: rest3)

/-- Four-byte sequences, leading byte `0xF0..=0xF4`. -/
def utf8StepFour : Nat → List Nat → Utf8Step
  | b, [] => .incomplete [b]
  | b, b2 :: rest2 =>
    if utf8FourByteSecondOk b b2 then utf8StepFourTail b b2 rest2
    else .invalid [b] (b2 :: rest2)

/-- One step of `run_utf8_validation`: dispatch on `utf8_char_width` of the
leading byte (`0x00..=0x7F` width 1; `0x80..=0xC1` and `0xF5..=0xFF` width
0, immediately invalid; `0xC2..=0xDF` width 2; `0xE0..=0xEF` width 3;
`0xF0..=0xF4` width 4). -/
def utf8Step : List Nat → Utf8Step
  | [] => .empty
  | b :: rest =>
    if b ≤ 0x7F then .ch b rest
    else if b < 0xC2 then .invalid [b] rest
    else if b ≤ 0xDF then utf8StepTwo b rest
    else if b ≤ 0xEF then utf8StepThree b rest
    else if b ≤ 0xF4 then utf8StepFour b rest
    else .invalid [b] rest

/-- Standard UTF-8 encoding of one Unicode scalar value
(`char::encode_utf8`). -/
def utf8EncodeChar (c : Nat) : List Nat :=
  if c ≤ 0x7F then [c]
  else if c ≤ 0x7FF then [0xC0 + c / 0x40, 0x80 + c % 0x40]
  else if c ≤ 0xFFFF then [0xE0 + c / 0x1000, 0x80 + c / 0x40 % 0x40, 0x80 + c % 0x40]
  else [0xF0 + c / 0x40000, 0x80 + c / 0x1000 % 0x40, 0x80 + c / 0x40 % 0x40,
    0x80 + c % 0x40]

/-- `str::as_bytes`: a string (list of scalar values) viewed as UTF-8
bytes. -/
def utf8Encode (s : List Nat) : List Nat := (s.map utf8EncodeChar).flatten

/-- A Unicode scalar value (the values a Rust `char` can hold). -/
def isValidScalar (c : Nat) : Prop := c < 0xD800 ∨ (0xE000 ≤ c ∧ c ≤ 0x10FFFF)

/-- `std::str::from_utf8` as a total decoder: the list of scalar values
when the input is valid UTF-8, `none` otherwise.  The fuel argument is a
step budget; every step consumes at least one byte, so `l.length` steps
always suffice (see `rustFromUtf8`). -/
def rustFromUtf8Go : Nat → List Nat → Option (List Nat)
  | fuel, l =>
    match utf8Step l with
    | .empty => some []
    | .ch c rest =>
      match fuel with
      | 0 => none
      | fuel + 1 => (rustFromUtf8Go fuel rest).map (fun s => c :: s)
    | .invalid _ _ => none
    | .incomplete _ => none

/-- `std::str::from_utf8`, success as the decoded scalar values. -/
def rustFromUtf8 (l : List Nat) : Option (List Nat) := rustFromUtf8Go l.length l

/-! ## FieldValue byte conversion (src/http/common.rs lines 221-291) -/

/-- `FieldValue` (src/http/common.rs lines 221-225): valid text (a list of
scalar values) or an untouched byte sequence. -/
inductive FieldValue where
  | Text (s : List Nat) : FieldValue
  | Opaque (data : List Nat) : FieldValue
deriving DecidableEq, Repr

/-- `From<&[u8]> for FieldValue` and `From<Vec<u8>> for FieldValue`
(src/http/common.rs lines 275-291): prefer text, fall back to the Opaque
variant when UTF-8 decoding fails. -/
def FieldValue.from_bytes (value : List Nat) : FieldValue :=
  match rustFromUtf8 value with
  | some text => .Text text
  | none => .Opaque value

/-- `FieldValue::as_bytes` (src/http/common.rs lines 236-241): the bytes of
the text, or the raw data. -/
def FieldValue.as_bytes : FieldValue → List Nat
  | .Text text => utf8Encode text
  | .Opaque data => data

/-! ## Byte-safe text codec (src/string/escape.rs) -/

/-- `ESCAPE_CHAR` (src/string/escape.rs line 1):
`char::REPLACEMENT_CHARACTER`, U+FFFD. -/
def ESCAPE_CHAR : Nat := 0xFFFD

/-- `LITERAL_SEQ_CHAR` (src/string/escape.rs line 2): U+E007F. -/
def LITERAL_SEQ_CHAR : Nat := 0xE007F

/-- `byte_to_escape_seq` (src/string/escape.rs lines 35-40). -/
def byte_to_escape_seq (byte : Nat) : Nat :=
  if byte ≤ 0x0F then 0xFE00 + byte else 0xE0100 + byte - 0x10

/-- The loop of `parse_utf8_escaped` (src/string/escape.rs lines 4-33),
one decoded unit at a time: a valid char is emitted (followed by the
literal marker when it equals the escape marker, as `escape_escape_char`
does); each byte of an invalid sequence (`error_len = Some n`) becomes the
escape marker plus its escape code point; a truncated sequence at the end
of input (`error_len = None`) hits the `break` and is dropped.  Fuel as in
`rustFromUtf8Go`. -/
def parseUtf8EscapedGo : Nat → List Nat → List Nat
  | fuel, l =>
    match utf8Step l with
    | .empty => []
    | .incomplete _ => []
    | .ch c rest =>
      match fuel with
      | 0 => []
      | fuel + 1 =>
        (if c = ESCAPE_CHAR then [c, LITERAL_SEQ_CHAR] else [c]) ++
          parseUtf8EscapedGo fuel rest
    | .invalid bad rest =>
      match fuel with
      | 0 => []
      | fuel + 1 =>
        (bad.map (fun byte => [ESCAPE_CHAR, byte_to_escape_seq byte])).flatten ++
          parseUtf8EscapedGo fuel rest

/-- `parse_utf8_escaped` (src/string/escape.rs lines 4-33); the result is a
list of scalar values (the Rust `String`). -/
def parse_utf8_escaped (input : List Nat) : List Nat :=
  parseUtf8EscapedGo input.length input

/-- `escape_seq_to_byte` (src/string/escape.rs lines 93-99). -/
def escape_seq_to_byte (ch : Nat) : Option Nat :=
  if 0xFE00 ≤ ch ∧ ch ≤ 0xFE0F then some (ch - 0xFE00)
  else if 0xE0100 ≤ ch ∧ ch ≤ 0xE01EF then some (ch - 0xE0100 + 0x10)
  else none

/-- `decode_escape_seq` (src/string/escape.rs lines 76-91): on an escape
sequence, pop the three UTF-8 bytes of the marker just pushed and push the
raw byte; on the literal marker, keep the already-pushed marker bytes; on
anything else, push the char's UTF-8 bytes. -/
def decode_escape_seq (ch : Nat) (buf : List Nat) : List Nat :=
  if ch ≠ LITERAL_SEQ_CHAR then
    match escape_seq_to_byte ch with
    | some byte => buf.dropLast.dropLast.dropLast ++ [byte]
    | none => buf ++ utf8EncodeChar ch
  else buf

/-- `EscapedToBytesState` (src/string/escape.rs lines 101-105). -/
inductive EscapedToBytesState where
  | Literal : EscapedToBytesState
  | Escape : EscapedToBytesState
deriving DecidableEq, Repr

/-- The loop of `utf8_escaped_to_bytes` (src/string/escape.rs lines 57-71):
in the Literal state push the char's UTF-8 bytes, entering Escape on the
escape marker; in the Escape state run `decode_escape_seq`. -/
def utf8EscapedToBytesGo : EscapedToBytesState → List Nat → List Nat → List Nat
  | _, buf, [] => buf
  | .Literal, buf, ch :: rest =>
    utf8EscapedToBytesGo (if ch = ESCAPE_CHAR then .Escape else .Literal)
      (buf ++ utf8EncodeChar ch) rest
  | .Escape, buf, ch :: rest =>
    utf8EscapedToBytesGo .Literal (decode_escape_seq ch buf) rest

/-- `utf8_escaped_to_bytes` (src/string/escape.rs lines 52-74). -/
def utf8_escaped_to_bytes (input : List Nat) : List Nat :=
  utf8EscapedToBytesGo .Literal [] input

/-! ## Callback state machine (src/client/curl.rs)

The session engine drives libcurl with five callback hooks and converts
each invocation into events for the caller's handler.  The handler, the
httparse parsers and the connect-line regex are external collaborators,
modelled by the `SessionEnv` record: `event` returns the handler's next
state, whether it called `abort()` on the session control, and an optional
error (`Result<(), BoxedError>`); `upload_content` likewise but returning
the bytes it filled the buffer with.  Each `handle_*` function returns the
updated `CallbackHandler`, its Rust `Result`, and the list of events it
delivered to the handler (in order). -/

/-- `CallbackState` (src/client/curl.rs lines 306-313). -/
inductive CallbackState where
  | HttpRequest : CallbackState
  | HttpResponse : CallbackState
  | HttpResponseTrailer : CallbackState
  | Finished : CallbackState
  | Ftp : CallbackState
deriving DecidableEq, Repr

/-- `SessionMode` (src/client/curl.rs lines 23-27). -/
inductive SessionMode where
  | Http : SessionMode
  | Ftp : SessionMode
deriving DecidableEq, Repr

/-- `SessionEvent` (src/client/common.rs lines 190-209).  Addresses are
(ip, port) pairs of numbers; progress counters are numbers; the parsed
header payloads are type parameters (they come from the external httparse
conversion). -/
inductive SessionEvent (ρ π τ : Type) where
  | Connected (addr : Nat × Nat) : SessionEvent ρ π τ
  | HeaderReceived (data : List Nat) : SessionEvent ρ π τ
  | HeaderSent (data : List Nat) : SessionEvent ρ π τ
  | BodyReceived (data : List Nat) : SessionEvent ρ π τ
  | BodySent (data : List Nat) : SessionEvent ρ π τ
  | ContentSent (data : List Nat) : SessionEvent ρ π τ
  | ContentReceived (data : List Nat) : SessionEvent ρ π τ
  | HttpRequest (data : List Nat) (header : ρ) : SessionEvent ρ π τ
  | HttpResponse (data : List Nat) (header : π) : SessionEvent ρ π τ
  | HttpResponseTrailer (data : List Nat) (trailer : τ) : SessionEvent ρ π τ
  | Progress (download_total download_current upload_total upload_current : Nat) :
      SessionEvent ρ π τ
deriving DecidableEq, Repr

/-- The parsed-header events, the ones produced by header framing. -/
def isParsedHeaderEvent {ρ π τ : Type} : SessionEvent ρ π τ → Bool
  | .HttpRequest _ _ => true
  | .HttpResponse _ _ => true
  | .HttpResponseTrailer _ _ => true
  | _ => false

/-- External collaborators of one session: the caller's `SessionHandler`
(state type σ), the httparse-based header parsers, and the connect-line
scraper (a regex over libcurl's log text).  `event h ev` returns the
handler's next state, whether it called `abort()`, and the error it
returned, mirroring `fn event(&mut self, control, event) -> Result`. -/
structure SessionEnv (σ ε ρ π τ : Type) where
  event : σ → SessionEvent ρ π τ → σ × Bool × Option ε
  upload_content : σ → Nat → σ × Bool × Except ε (List Nat)
  parseRequest : List Nat → Except ε ρ
  parseResponse : List Nat → Except ε π
  parseTrailer : List Nat → Except ε τ
  parse_connect_address : List Nat → Option (Nat × Nat)

/-- `CallbackHandler` (src/client/curl.rs lines 315-322); `aborted` is the
flag of the embedded `CurlSessionControl`. -/
structure CallbackHandler (σ ε : Type) where
  handler : σ
  aborted : Bool
  state : CallbackState
  error : Option ε
  receive_buf : List Nat
  send_buf : List Nat
deriving Repr

/-- `CallbackHandler::new` (src/client/curl.rs lines 324-339). -/
def CallbackHandler.new {σ ε : Type} (handler : σ) (mode : SessionMode) :
    CallbackHandler σ ε :=
  { handler := handler
    aborted := false
    state := match mode with
      | SessionMode.Http => CallbackState.HttpRequest
      | SessionMode.Ftp => CallbackState.Ftp
    error := none
    receive_buf := []
    send_buf := [] }

/-- `self.handler.event(&mut self.control, event)`: run the handler, fold
its abort request into the control flag, surface its error. -/
def callEvent {σ ε ρ π τ : Type} (E : SessionEnv σ ε ρ π τ)
    (cb : CallbackHandler σ ε) (ev : SessionEvent ρ π τ) :
    CallbackHandler σ ε × Option ε :=
  let r := E.event cb.handler ev
  ({ cb with handler := r.1, aborted := cb.aborted || r.2.1 }, r.2.2)

/-- `Result<(), BoxedError>` from an optional error. -/
def optToExcept {ε : Type} : Option ε → Except ε Unit
  | some e => Except.error e
  | none => Except.ok ()

/-- `handle_send_header` (src/client/curl.rs lines 486-506). -/
def handle_send_header {σ ε ρ π τ : Type} (E : SessionEnv σ ε ρ π τ)
    (cb : CallbackHandler σ ε) (data : List Nat) :
    CallbackHandler σ ε × Except ε Unit × List (SessionEvent ρ π τ) :=
  match callEvent E cb (.HeaderSent data) with
  | (cb, some e) => (cb, Except.error e, [SessionEvent.HeaderSent data])
  | (cb, none) =>
    if cb.state = CallbackState.HttpRequest then
      let cb := { cb with send_buf := cb.send_buf ++ data }
      match scan_header_boundary cb.send_buf with
      | some _ =>
        match E.parseRequest cb.send_buf with
        | Except.error e => (cb, Except.error e, [SessionEvent.HeaderSent data])
        | Except.ok header =>
          match callEvent E cb (.HttpRequest data header) with
          | (cb, some e) => (cb, Except.error e,
              [SessionEvent.HeaderSent data, SessionEvent.HttpRequest data header])
          | (cb, none) => ({ cb with state := CallbackState.HttpResponse }, Except.ok (),
              [SessionEvent.HeaderSent data, SessionEvent.HttpRequest data header])
      | none => (cb, Except.ok (), [SessionEvent.HeaderSent data])
    else (cb, Except.ok (), [SessionEvent.HeaderSent data])

/-- `handle_receive_header` (src/client/curl.rs lines 508-542). -/
def handle_receive_header {σ ε ρ π τ : Type} (E : SessionEnv σ ε ρ π τ)
    (cb : CallbackHandler σ ε) (data : List Nat) :
    CallbackHandler σ ε × Except ε Unit × List (SessionEvent ρ π τ) :=
  match callEvent E cb (.HeaderReceived data) with
  | (cb, some e) => (cb, Except.error e, [SessionEvent.HeaderReceived data])
  | (cb, none) =>
    if cb.state = CallbackState.HttpResponse then
      let cb := { cb with receive_buf := cb.receive_buf ++ data }
      match scan_header_boundary cb.receive_buf with
      | some _ =>
        match E.parseResponse cb.receive_buf with
        | Except.error e => (cb, Except.error e, [SessionEvent.HeaderReceived data])
        | Except.ok header =>
          match callEvent E cb (.HttpResponse data header) with
          | (cb, some e) => (cb, Except.error e,
              [SessionEvent.HeaderReceived data, SessionEvent.HttpResponse data header])
          | (cb, none) => ({ cb with state := CallbackState.HttpResponseTrailer },
              Except.ok (),
              [SessionEvent.HeaderReceived data, SessionEvent.HttpResponse data header])
      | none => (cb, Except.ok (), [SessionEvent.HeaderReceived data])
    else if cb.state = CallbackState.HttpResponseTrailer then
      let cb := { cb with receive_buf := cb.receive_buf ++ data }
      match scan_header_boundary cb.receive_buf with
      | some _ =>
        match E.parseTrailer cb.receive_buf with
        | Except.error e => (cb, Except.error e, [SessionEvent.HeaderReceived data])
        | Except.ok trailer =>
          match callEvent E cb (.HttpResponseTrailer data trailer) with
          | (cb, some e) => (cb, Except.error e,
              [SessionEvent.HeaderReceived data,
                SessionEvent.HttpResponseTrailer data trailer])
          | (cb, none) => ({ cb with state := CallbackState.Finished }, Except.ok (),
              [SessionEvent.HeaderReceived data,
                SessionEvent.HttpResponseTrailer data trailer])
      | none => (cb, Except.ok (), [SessionEvent.HeaderReceived data])
    else (cb, Except.ok (), [SessionEvent.HeaderReceived data])

/-- `handle_send_body` (src/client/curl.rs lines 544-548). -/
def handle_send_body {σ ε ρ π τ : Type} (E : SessionEnv σ ε ρ π τ)
    (cb : CallbackHandler σ ε) (data : List Nat) :
    CallbackHandler σ ε × Except ε Unit × List (SessionEvent ρ π τ) :=
  let r := callEvent E cb (.BodySent data)
  (r.1, optToExcept r.2, [SessionEvent.BodySent data])

/-- `handle_receive_body` (src/client/curl.rs lines 550-554). -/
def handle_receive_body {σ ε ρ π τ : Type} (E : SessionEnv σ ε ρ π τ)
    (cb : CallbackHandler σ ε) (data : List Nat) :
    CallbackHandler σ ε × Except ε Unit × List (SessionEvent ρ π τ) :=
  let r := callEvent E cb (.BodyReceived data)
  (r.1, optToExcept r.2, [SessionEvent.BodyReceived data])

/-- `handle_receive_content` (src/client/curl.rs lines 565-569). -/
def handle_receive_content {σ ε ρ π τ : Type} (E : SessionEnv σ ε ρ π τ)
    (cb : CallbackHandler σ ε) (data : List Nat) :
    CallbackHandler σ ε × Except ε Unit × List (SessionEvent ρ π τ) :=
  let r := callEvent E cb (.ContentReceived data)
  (r.1, optToExcept r.2, [SessionEvent.ContentReceived data])

/-- `handle_send_content` (src/client/curl.rs lines 556-563): ask the
handler to fill the buffer, emit the filled slice as a ContentSent event,
return its size. -/
def handle_send_content {σ ε ρ π τ : Type} (E : SessionEnv σ ε ρ π τ)
    (cb : CallbackHandler σ ε) (bufSize : Nat) :
    CallbackHandler σ ε × Except ε Nat × List (SessionEvent ρ π τ) :=
  let u := E.upload_content cb.handler bufSize
  let cb := { cb with handler := u.1, aborted := cb.aborted || u.2.1 }
  match u.2.2 with
  | Except.error e => (cb, Except.error e, [])
  | Except.ok filled =>
    match callEvent E cb (.ContentSent filled) with
    | (cb, some e) => (cb, Except.error e, [SessionEvent.ContentSent filled])
    | (cb, none) => (cb, Except.ok filled.length, [SessionEvent.ContentSent filled])

/-- `handle_progress` (src/client/curl.rs lines 571-588). -/
def handle_progress {σ ε ρ π τ : Type} (E : SessionEnv σ ε ρ π τ)
    (cb : CallbackHandler σ ε) (dt dc ut uc : Nat) :
    CallbackHandler σ ε × Except ε Unit × List (SessionEvent ρ π τ) :=
  let r := callEvent E cb (.Progress dt dc ut uc)
  (r.1, optToExcept r.2, [SessionEvent.Progress dt dc ut uc])

/-- `handle_curl_log` / `find_and_emit_connect_event` (src/client/curl.rs
lines 465-484): best-effort connect-address scrape; emit a Connected event
when the pattern matches. -/
def handle_curl_log {σ ε ρ π τ : Type} (E : SessionEnv σ ε ρ π τ)
    (cb : CallbackHandler σ ε) (data : List Nat) :
    CallbackHandler σ ε × Except ε Unit × List (SessionEvent ρ π τ) :=
  match E.parse_connect_address data with
  | some addr =>
    let r := callEvent E cb (.Connected addr)
    (r.1, optToExcept r.2, [SessionEvent.Connected addr])
  | none => (cb, Except.ok (), [])

/-- The error capture done by `debug_function`, `header_function` and
`progress_function` after each `handle_*` call (for example src/client/
curl.rs lines 388-393): store the error and abort. -/
def captureError {σ ε : Type} (cb : CallbackHandler σ ε) :
    Except ε Unit → CallbackHandler σ ε
  | Except.error e => { cb with error := some e, aborted := true }
  | Except.ok _ => cb

/-- `write_function` (src/client/curl.rs lines 448-463): emit the content
event, capture any error, then report the full length consumed unless the
session is aborted, in which case zero. -/
def write_function {σ ε ρ π τ : Type} (E : SessionEnv σ ε ρ π τ)
    (cb : CallbackHandler σ ε) (data : List Nat) :
    CallbackHandler σ ε × Nat × List (SessionEvent ρ π τ) :=
  match handle_receive_content E cb data with
  | (cb, r, trace) =>
    let cb := captureError cb r
    (cb, if cb.aborted then 0 else data.length, trace)

/-- `read_function` (src/client/curl.rs lines 428-446):
`Result<usize, ReadError>` is `Except Unit Nat` (the only error used is
`ReadError::Abort`).  A handler error stores the error (without setting the
abort flag) and returns Abort; a handler abort also returns Abort. -/
def read_function {σ ε ρ π τ : Type} (E : SessionEnv σ ε ρ π τ)
    (cb : CallbackHandler σ ε) (bufSize : Nat) :
    CallbackHandler σ ε × Except Unit Nat × List (SessionEvent ρ π τ) :=
  match handle_send_content E cb bufSize with
  | (cb, Except.ok size, trace) =>
    if cb.aborted then (cb, Except.error (), trace) else (cb, Except.ok size, trace)
  | (cb, Except.error e, trace) =>
    ({ cb with error := some e }, Except.error (), trace)

/-- `header_function` (src/client/curl.rs lines 385-396): returns
`!self.control.aborted` to the transport. -/
def header_function {σ ε ρ π τ : Type} (E : SessionEnv σ ε ρ π τ)
    (cb : CallbackHandler σ ε) (data : List Nat) :
    CallbackHandler σ ε × Bool × List (SessionEvent ρ π τ) :=
  match handle_receive_header E cb data with
  | (cb, r, trace) =>
    let cb := captureError cb r
    (cb, !cb.aborted, trace)

/-- `progress_function` (src/client/curl.rs lines 398-426). -/
def progress_function {σ ε ρ π τ : Type} (E : SessionEnv σ ε ρ π τ)
    (cb : CallbackHandler σ ε) (dt dc ut uc : Nat) :
    CallbackHandler σ ε × Bool × List (SessionEvent ρ π τ) :=
  match handle_progress E cb dt dc ut uc with
  | (cb, r, trace) =>
    let cb := captureError cb r
    (cb, !cb.aborted, trace)

/-- One transport callback invocation, as libcurl would issue it.  The
`Text`/`HeaderIn`/`HeaderOut`/`DataIn`/`DataOut` variants reach
`debug_function` with the corresponding `InfoType` (`HeaderIn` stands for
every InfoType the dispatch ignores); the rest are the four dedicated
hooks. -/
inductive TransportCallback where
  | Text (data : List Nat) : TransportCallback
  | HeaderIn (data : List Nat) : TransportCallback
  | HeaderOut (data : List Nat) : TransportCallback
  | DataIn (data : List Nat) : TransportCallback
  | DataOut (data : List Nat) : TransportCallback
  | HeaderFunction (data : List Nat) : TransportCallback
  | ProgressFunction (dt dc ut uc : Nat) : TransportCallback
  | ReadFunction (bufSize : Nat) : TransportCallback
  | WriteFunction (data : List Nat) : TransportCallback
deriving DecidableEq, Repr

/-- Dispatch of one callback: `debug_function` (src/client/curl.rs lines
341-383) for the five InfoType variants, and the four dedicated hooks.
Returns the new state and the events delivered during the invocation. -/
def runCallback {σ ε ρ π τ : Type} (E : SessionEnv σ ε ρ π τ)
    (cb : CallbackHandler σ ε) :
    TransportCallback → CallbackHandler σ ε × List (SessionEvent ρ π τ)
  | TransportCallback.Text data =>
    match handle_curl_log E cb data with
    | (cb, r, trace) => (captureError cb r, trace)
  | TransportCallback.HeaderIn _ => (cb, [])
  | TransportCallback.HeaderOut data =>
    match handle_send_header E cb data with
    | (cb, r, trace) => (captureError cb r, trace)
  | TransportCallback.DataIn data =>
    match handle_receive_body E cb data with
    | (cb, r, trace) => (captureError cb r, trace)
  | TransportCallback.DataOut data =>
    match handle_send_body E cb data with
    | (cb, r, trace) => (captureError cb r, trace)
  | TransportCallback.HeaderFunction data =>
    match header_function E cb data with
    | (cb, _, trace) => (cb, trace)
  | TransportCallback.ProgressFunction dt dc ut uc =>
    match progress_function E cb dt dc ut uc with
    | (cb, _, trace) => (cb, trace)
  | TransportCallback.ReadFunction bufSize =>
    match read_function E cb bufSize with
    | (cb, _, trace) => (cb, trace)
  | TransportCallback.WriteFunction data =>
    match write_function E cb data with
    | (cb, _, trace) => (cb, trace)

/-- Fold a whole script of transport callbacks over the session state. -/
def runCallbacks {σ ε ρ π τ : Type} (E : SessionEnv σ ε ρ π τ)
    (cb : CallbackHandler σ ε) (script : List TransportCallback) :
    CallbackHandler σ ε :=
  script.foldl (fun cb c => (runCallback E cb c).1) cb

/-- The session's consolidated error (src/client/curl.rs lines 196-209 and
274-281): either the transport error (type χ) or the retained handler
error wrapped as `Error::Other(OtherError::Custom(..))`. -/
inductive SessionError (χ ε : Type) where
  | transport (e : χ) : SessionError χ ε
  | handler (e : ε) : SessionError χ ε
deriving DecidableEq, Repr

/-- `perform_with_callbacks` (src/client/curl.rs lines 177-209) as seen by
`wait` (lines 274-281): run the callbacks, restore the handler
(`self.handler = Some(handler)` happens before any error propagates, so the
caller always gets it back), then `result?` — the transport's own result —
and only if that is Ok surface the retained callback error.  `set_up` only
configures the external transport and is omitted. -/
def perform_with_callbacks {σ ε ρ π τ χ : Type} (E : SessionEnv σ ε ρ π τ)
    (handler₀ : σ) (mode : SessionMode) (script : List TransportCallback)
    (transportResult : Except χ Unit) : σ × Except (SessionError χ ε) Unit :=
  let cb := runCallbacks E (CallbackHandler.new handler₀ mode) script
  (cb.handler,
    match transportResult with
    | Except.error e => Except.error (SessionError.transport e)
    | Except.ok _ =>
      match cb.error with
      | some e => Except.error (SessionError.handler e)
      | none => Except.ok ())

/-- A handler environment whose `event` always fails with error 7 and whose
`upload_content` always fails with error 7 (used at concrete inputs). -/
def alwaysFailEnv : SessionEnv Unit Nat Unit Unit Unit :=
  { event := fun _ _ => ((), false, some 7)
    upload_content := fun _ _ => ((), false, Except.error 7)
    parseRequest := fun _ => Except.ok ()
    parseResponse := fun _ => Except.ok ()
    parseTrailer := fun _ => Except.ok ()
    parse_connect_address := fun _ => none }

/-- A handler environment that always succeeds without aborting (used at
concrete inputs). -/
def alwaysOkEnv : SessionEnv Unit Nat Unit Unit Unit :=
  { event := fun _ _ => ((), false, none)
    upload_content := fun _ _ => ((), false, Except.ok [])
    parseRequest := fun _ => Except.ok ()
    parseResponse := fun _ => Except.ok ()
    parseTrailer := fun _ => Except.ok ()
    parse_connect_address := fun _ => none }

/-! ## Supporting lemmas for the header framer -/

theorem splitInclusive_eq_nil_iff (l : List Nat) : splitInclusive l = [] ↔ l = [] := by
  constructor
  · intro h
    cases l with
    | nil => rfl
    | cons b rest =>
      rw [splitInclusive] at h
      split at h
      · simp at h
      · split at h <;> simp_all
  · rintro rfl
    rfl

/-- The inclusive lines concatenate back to the original buffer, so line
offsets are byte offsets into the buffer. -/
theorem splitInclusive_flatten (data : List Nat) : (splitInclusive data).flatten = data := by
  induction data with
  | nil => rfl
  | cons b rest ih =>
    rw [splitInclusive]
    split
    · simp_all
    · rcases h : splitInclusive rest with _ | ⟨l, ls⟩
      · rw [(splitInclusive_eq_nil_iff rest).mp h]
        simp
      · rw [h] at ih
        simpa using ih

theorem scanHeaderBoundaryGo_eq_some_iff (i : Nat) (ls : List (List Nat)) (n : Nat) :
    scanHeaderBoundaryGo i ls = some n ↔
      ∃ pre line post, ls = pre ++ line :: post ∧
        (∀ l ∈ pre, isTerminatorLine l = false) ∧
        isTerminatorLine line = true ∧
        n = i + pre.flatten.length + line.length := by
  induction ls generalizing i with
  | nil => simp [scanHeaderBoundaryGo]
  | cons l ls ih =>
    rw [scanHeaderBoundaryGo]
    by_cases hterm : isTerminatorLine l = true
    · rw [if_pos hterm]
      constructor
      · intro h
        injection h with h
        exact ⟨[], l, ls, rfl, by simp, hterm, by simp [← h]⟩
      · rintro ⟨pre, line, post, heq, hpre, hline, hn⟩
        cases pre with
        | nil =>
          simp only [List.nil_append] at heq
          injection heq with h1 h2
          subst h1
          simp [hn]
        | cons p ps =>
          simp only [List.cons_append] at heq
          injection heq with h1 h2
          subst h1
          have := hpre l (by simp)
          rw [this] at hterm
          exact absurd hterm (by simp)
    · rw [if_neg hterm]
      rw [ih (i + l.length)]
      constructor
      · rintro ⟨pre, line, post, rfl, hpre, hline, hn⟩
        refine ⟨l :: pre, line, post, rfl, ?_, hline, ?_⟩
        · intro x hx
          rcases List.mem_cons.mp hx with rfl | hx
          · exact Bool.eq_false_iff.mpr hterm
          · exact hpre x hx
        · simp only [List.flatten_cons, List.length_append] at *
          omega
      · rintro ⟨pre, line, post, heq, hpre, hline, hn⟩
        cases pre with
        | nil =>
          simp only [List.nil_append] at heq
          injection heq with h1 h2
          subst h1
          exact absurd hline hterm
        | cons p ps =>
          simp only [List.cons_append] at heq
          injection heq with h1 h2
          subst h1
          refine ⟨ps, line, post, h2, fun x hx => hpre x (List.mem_cons_of_mem _ hx), hline, ?_⟩
          simp only [List.flatten_cons, List.length_append] at *
          omega

/-- C6: `scan_header_boundary` returns the byte offset immediately after the
first complete line (lines end at `\n`) that is entirely whitespace, and
`none` when no such line exists; concretely, the empty buffer and `"abc"`
give `none`, `"abc\r\n\r\nxyz"` gives `some 7`, and a whitespace-only line
`" \t "` followed by `\n` counts as the terminator. -/
theorem claim_C6_scan_header_boundary :
    (∀ (data : List Nat) (n : Nat),
       scan_header_boundary data = some n ↔
         ∃ pre line post,
           splitInclusive data = pre ++ line :: post ∧
           data = pre.flatten ++ (line ++ post.flatten) ∧
           (∀ l ∈ pre, isTerminatorLine l = false) ∧
           isTerminatorLine line = true ∧
           n = pre.flatten.length + line.length) ∧
    scan_header_boundary [] = none ∧
    scan_header_boundary [0x61, 0x62, 0x63] = none ∧
    scan_header_boundary [0x61, 0x62, 0x63, 0x0D, 0x0A, 0x0D, 0x0A, 0x78, 0x79, 0x7A] =
      some 7 ∧
    scan_header_boundary [0x61, 0x62, 0x63, 0x0D, 0x0A, 0x20, 0x09, 0x20, 0x0A, 0x78] =
      some 9 := by
  refine ⟨?_, rfl, rfl, by decide, by decide⟩
  intro data n
  rw [scan_header_boundary, scanHeaderBoundaryGo_eq_some_iff]
  constructor
  · rintro ⟨pre, line, post, heq, hpre, hline, hn⟩
    refine ⟨pre, line, post, heq, ?_, hpre, hline, by omega⟩
    conv_lhs => rw [← splitInclusive_flatten data]
    rw [heq]
    simp
  · rintro ⟨pre, line, post, heq, _, hpre, hline, hn⟩
    exact ⟨pre, line, post, heq, hpre, hline, by omega⟩

/-- Witness for C6: the characterization instantiated on the concrete buffer
`"abc\r\n\r\nxyz"`, whose boundary offset is 7. -/
theorem claim_C6_witness :
    ∃ pre line post,
      splitInclusive [0x61, 0x62, 0x63, 0x0D, 0x0A, 0x0D, 0x0A, 0x78, 0x79, 0x7A] =
        pre ++ line :: post ∧
      [0x61, 0x62, 0x63, 0x0D, 0x0A, 0x0D, 0x0A, 0x78, 0x79, 0x7A] =
        pre.flatten ++ (line ++ post.flatten) ∧
      (∀ l ∈ pre, isTerminatorLine l = false) ∧
      isTerminatorLine line = true ∧
      7 = pre.flatten.length + line.length :=
  (claim_C6_scan_header_boundary.1 _ 7).mp (by decide)

/-! ## Cookie rendering lemmas (C3, C4) -/

theorem formatClientHeaderStep_fit {maxLen : Nat} {buf : List Nat} {name value : List Nat}
    (h : buf.length + name.length + value.length + 4 ≤ maxLen) :
    formatClientHeaderStep maxLen buf (name, value) =
      (if buf.isEmpty then buf else buf ++ [0x3B, 0x20]) ++ name ++ [0x3D] ++
        (if 0x20 ∈ value then [0x22] ++ value ++ [0x22] else value) := by
  rw [formatClientHeaderStep, if_pos h]

theorem formatClientHeaderStep_nofit {maxLen : Nat} {buf : List Nat} {name value : List Nat}
    (h : ¬ buf.length + name.length + value.length + 4 ≤ maxLen) :
    formatClientHeaderStep maxLen buf (name, value) = buf := by
  rw [formatClientHeaderStep, if_neg h]

theorem formatClientHeaderStep_fit_length {maxLen : Nat} {buf : List Nat}
    {name value : List Nat}
    (h : buf.length + name.length + value.length + 4 ≤ maxLen) :
    (formatClientHeaderStep maxLen buf (name, value)).length =
      buf.length + (if buf.isEmpty then 0 else 2) + name.length + 1 + value.length +
        (if 0x20 ∈ value then 2 else 0) := by
  rw [formatClientHeaderStep_fit h]
  split_ifs <;> simp only [List.length_append, List.length_cons, List.length_nil] <;> omega

theorem formatClientHeaderStep_length_cases (maxLen : Nat) (buf : List Nat)
    (c : List Nat × List Nat) :
    (formatClientHeaderStep maxLen buf c).length ≤ buf.length ∨
      (formatClientHeaderStep maxLen buf c).length ≤ maxLen + 1 := by
  obtain ⟨name, value⟩ := c
  by_cases h : buf.length + name.length + value.length + 4 ≤ maxLen
  · right
    rw [formatClientHeaderStep_fit_length h]
    split_ifs <;> omega
  · left
    rw [formatClientHeaderStep_nofit h]

theorem foldl_formatClientHeaderStep_length_le (maxLen : Nat)
    (cs : List (List Nat × List Nat)) :
    ∀ buf : List Nat, buf.length ≤ maxLen + 1 →
      (List.foldl (formatClientHeaderStep maxLen) buf cs).length ≤ maxLen + 1 := by
  induction cs with
  | nil => intro buf hb; simpa using hb
  | cons c cs ih =>
    intro buf hb
    rw [List.foldl_cons]
    apply ih
    rcases formatClientHeaderStep_length_cases maxLen buf c with h | h <;> omega

/-- C3 counterexample: with the 4096-byte budget, the first entry
(`name = "a"`, a 4093-byte value) is skipped because including it would
exceed the budget, yet the later, smaller entry `("b", "c")` is still
appended: the loop uses `if` without `break`, so a skip does not stop
processing. -/
theorem claim_C3_counterexample :
    ([0x61] : List Nat).length + (List.replicate 4093 0x61).length + 4 >
      MAX_HEADER_VALUE_LEN ∧
    format_client_header [([0x61], List.replicate 4093 0x61), ([0x62], [0x63])]
        MAX_HEADER_VALUE_LEN = [0x62, 0x3D, 0x63] := by
  have hlen : (List.replicate 4093 (0x61 : Nat)).length = 4093 := List.length_replicate _ _
  constructor
  · rw [hlen]; decide
  · show List.foldl (formatClientHeaderStep MAX_HEADER_VALUE_LEN) [] _ = _
    rw [List.foldl_cons, formatClientHeaderStep_nofit (by rw [hlen]; decide),
      List.foldl_cons, List.foldl_nil, formatClientHeaderStep_fit (by decide)]
    decide

/-- C3 amended: entries are processed in the jar's iteration order and each
entry is skipped individually exactly when the buffer accumulated so far
plus the entry's name length, value length and 4 exceeds the budget; a skip
does not terminate processing, so any later entry whose check passes is
still appended (the rendered string strictly grows). -/
theorem claim_C3_amended (maxLen : Nat) (cs : List (List Nat × List Nat))
    (n v : List Nat) :
    (format_client_header (cs ++ [(n, v)]) maxLen =
       formatClientHeaderStep maxLen (format_client_header cs maxLen) (n, v)) ∧
    ((format_client_header cs maxLen).length + n.length + v.length + 4 > maxLen →
       format_client_header (cs ++ [(n, v)]) maxLen = format_client_header cs maxLen) ∧
    ((format_client_header cs maxLen).length + n.length + v.length + 4 ≤ maxLen →
       (format_client_header cs maxLen).length <
         (format_client_header (cs ++ [(n, v)]) maxLen).length) := by
  have hsplit : format_client_header (cs ++ [(n, v)]) maxLen =
      formatClientHeaderStep maxLen (format_client_header cs maxLen) (n, v) := by
    rw [format_client_header, format_client_header, List.foldl_append, List.foldl_cons,
      List.foldl_nil]
  refine ⟨hsplit, ?_, ?_⟩
  · intro h
    rw [hsplit, formatClientHeaderStep_nofit (by omega)]
  · intro h
    rw [hsplit, formatClientHeaderStep_fit_length h]
    split_ifs <;> omega

/-- Witness for C3 amended: after the skipped oversized first entry, the
fitting entry `("b", "c")` strictly grows the rendered string. -/
theorem claim_C3_amended_witness :
    (format_client_header [([0x61], List.replicate 4093 0x61)] MAX_HEADER_VALUE_LEN).length <
      (format_client_header [([0x61], List.replicate 4093 0x61), ([0x62], [0x63])]
          MAX_HEADER_VALUE_LEN).length := by
  have hbase : format_client_header [([0x61], List.replicate 4093 0x61)]
      MAX_HEADER_VALUE_LEN = [] := by
    show List.foldl (formatClientHeaderStep MAX_HEADER_VALUE_LEN) [] _ = _
    rw [List.foldl_cons, formatClientHeaderStep_nofit
      (by rw [List.length_replicate]; decide), List.foldl_nil]
  exact (claim_C3_amended MAX_HEADER_VALUE_LEN [([0x61], List.replicate 4093 0x61)]
    [0x62] [0x63]).2.2 (by rw [hbase]; decide)

/-- C4 counterexample: two entries whose rendering reaches 4097 bytes, one
more than the 4096 budget: the fit check budgets 4 extra bytes but a quoted
value appended after an existing entry costs 5 (`"; "` + `'='` + two
quotes). -/
theorem claim_C4_counterexample :
    (format_client_header [([0x61], [0x62]), ([0x63], List.replicate 4088 0x20)]
        MAX_HEADER_VALUE_LEN).length = MAX_HEADER_VALUE_LEN + 1 := by
  have hlen : (List.replicate 4088 (0x20 : Nat)).length = 4088 := List.length_replicate _ _
  show (List.foldl (formatClientHeaderStep MAX_HEADER_VALUE_LEN) [] _).length = _
  rw [List.foldl_cons, formatClientHeaderStep_fit (by decide)]
  rw [show (if ([] : List Nat).isEmpty then ([] : List Nat) else [] ++ [0x3B, 0x20]) ++
        [0x61] ++ [0x3D] ++
        (if (0x20 : Nat) ∈ [0x62] then [0x22] ++ [0x62] ++ [0x22] else [0x62]) =
        [0x61, 0x3D, 0x62] from by decide]
  rw [List.foldl_cons, List.foldl_nil,
    formatClientHeaderStep_fit (by rw [hlen]; decide)]
  rw [if_neg (by decide), if_pos ((List.mem_replicate).mpr ⟨by decide, rfl⟩)]
  simp only [List.length_append, hlen, MAX_HEADER_VALUE_LEN]
  decide

/-- C4 amended: the rendered cookie header value never exceeds the budget
by more than one byte: its length is at most 4097 for every cookie
sequence (the overshoot of exactly one byte happens when a quoted value
follows an existing entry). -/
theorem claim_C4_amended (cookies : List (List Nat × List Nat)) :
    (format_client_header cookies MAX_HEADER_VALUE_LEN).length ≤
      MAX_HEADER_VALUE_LEN + 1 :=
  foldl_formatClientHeaderStep_length_le _ _ _ (by simp)

/-! ## Header field model lemmas (C5, C10) -/

theorem listPosition_eq_none_iff {α : Type} (p : α → Bool) (l : List α) :
    listPosition p l = none ↔ ∀ x ∈ l, p x = false := by
  induction l with
  | nil => simp [listPosition]
  | cons x xs ih =>
    rw [listPosition]
    by_cases h : p x = true
    · simp [h]
    · rw [if_neg h, Option.map_eq_none', ih]
      constructor
      · intro hall y hy
        rcases List.mem_cons.mp hy with rfl | hy
        · exact Bool.eq_false_iff.mpr h
        · exact hall y hy
      · intro hall y hy
        exact hall y (List.mem_cons_of_mem _ hy)

theorem listPosition_eq_some {α : Type} (p : α → Bool) (l : List α) (n : Nat)
    (h : listPosition p l = some n) :
    ∃ pre x post, l = pre ++ x :: post ∧ pre.length = n ∧
      (∀ y ∈ pre, p y = false) ∧ p x = true := by
  induction l generalizing n with
  | nil => simp [listPosition] at h
  | cons x xs ih =>
    rw [listPosition] at h
    by_cases hx : p x
    · rw [if_pos hx] at h
      injection h with h
      exact ⟨[], x, xs, rfl, h, by simp, hx⟩
    · rw [if_neg hx] at h
      obtain ⟨m, hm, hm2⟩ := Option.map_eq_some'.mp h
      subst hm2
      obtain ⟨pre, y, post, rfl, hlen, hpre, hy⟩ := ih m hm
      refine ⟨x :: pre, y, post, rfl, by simp [hlen], ?_, hy⟩
      intro z hz
      rcases List.mem_cons.mp hz with rfl | hz
      · exact Bool.eq_false_iff.mpr hx
      · exact hpre z hz

theorem insertIdx_append_length {α : Type} (l1 l2 : List α) (x : α) :
    (l1 ++ l2).insertIdx l1.length x = l1 ++ x :: l2 := by
  induction l1 with
  | nil => simp [List.insertIdx_zero]
  | cons a l1 ih => simp [List.insertIdx_succ_cons, ih]

theorem drop_append_cons {α : Type} (l1 l2 : List α) (x : α) :
    (l1 ++ x :: l2).drop (l1.length + 1) = l2 := by
  induction l1 with
  | nil => simp
  | cons a l1 _ => simp

theorem HeaderFields.insert_eq_of_pos {α : Type} {fields : HeaderFields α}
    {key : FieldName} {value : α} {p : Nat}
    (h : listPosition (fun kv => kv.1.beq key) fields = some p) :
    HeaderFields.insert fields key value =
      (fields.remove key).insertIdx p (key, value) := by
  rw [HeaderFields.insert, h]

theorem HeaderFields.insert_eq_of_none {α : Type} {fields : HeaderFields α}
    {key : FieldName} {value : α}
    (h : listPosition (fun kv => kv.1.beq key) fields = none) :
    HeaderFields.insert fields key value = fields.append key value := by
  rw [HeaderFields.insert, h]

/-- Closed form of `HeaderFields::insert` when the key occurs at first
position `p`: the prefix before `p` is kept, the new pair sits at `p`, and
every later entry with the same key is filtered out. -/
theorem HeaderFields.insert_closed_form {α : Type} (f : HeaderFields α)
    (k : FieldName) (v : α) (p : Nat)
    (hpos : listPosition (fun kv => kv.1.beq k) f = some p) :
    HeaderFields.insert f k v =
      f.take p ++ (k, v) :: ((f.drop (p + 1)).filter (fun kv => !(kv.1.beq k))) := by
  obtain ⟨pre, x, post, rfl, hlen, hpre, hx⟩ := listPosition_eq_some _ _ _ hpos
  have hprefilter : pre.filter (fun kv => !(kv.1.beq k)) = pre :=
    List.filter_eq_self.mpr (fun y hy => by rw [hpre y hy]; rfl)
  rw [HeaderFields.insert_eq_of_pos hpos, HeaderFields.remove]
  rw [List.filter_append, hprefilter, List.filter_cons, if_neg (by rw [hx]; simp)]
  subst hlen
  rw [insertIdx_append_length, List.take_left, drop_append_cons]

/-- C5: `append` never removes entries (it is exactly concatenation with
the new pair, so the length grows by one); `insert` leaves exactly one
entry with the inserted key, preserves all entries with other keys, and
puts the new pair at the position of the first prior occurrence (prefix
before that position untouched), or appends when the key was absent. -/
theorem claim_C5_header_fields {α : Type} (f : HeaderFields α) (k : FieldName)
    (v : α) :
    (HeaderFields.append f k v = f ++ [(k, v)] ∧
     (HeaderFields.append f k v).length = f.length + 1) ∧
    ((HeaderFields.insert f k v).filter (fun kv => kv.1.beq k)).length = 1 ∧
    ((HeaderFields.insert f k v).filter (fun kv => !(kv.1.beq k)) =
      f.filter (fun kv => !(kv.1.beq k))) ∧
    (∀ p, listPosition (fun kv => kv.1.beq k) f = some p →
       HeaderFields.insert f k v =
         f.take p ++ (k, v) :: ((f.drop (p + 1)).filter (fun kv => !(kv.1.beq k))) ∧
       (HeaderFields.insert f k v)[p]? = some (k, v) ∧
       (HeaderFields.insert f k v).take p = f.take p) ∧
    (listPosition (fun kv => kv.1.beq k) f = none →
       HeaderFields.insert f k v = f ++ [(k, v)]) := by
  have hkk : FieldName.beq k k = true := by simp [FieldName.beq]
  refine ⟨⟨rfl, by simp [HeaderFields.append]⟩, ?_, ?_, ?_, ?_⟩
  · rcases hpos : listPosition (fun kv => kv.1.beq k) f with _ | p
    · rw [HeaderFields.insert_eq_of_none hpos, HeaderFields.append, List.filter_append]
      rw [List.filter_eq_nil_iff.mpr (fun y hy => by
        rw [(listPosition_eq_none_iff _ _).mp hpos y hy]; exact Bool.false_ne_true)]
      simp [hkk]
    · obtain ⟨pre, x, post, hf, hlen, hpre, hx⟩ := listPosition_eq_some _ _ _ hpos
      rw [HeaderFields.insert_closed_form _ _ _ _ hpos]
      rw [hf]
      subst hlen
      rw [List.take_left, drop_append_cons]
      rw [List.filter_append]
      rw [List.filter_eq_nil_iff.mpr (fun y hy => by
        rw [hpre y hy]; exact Bool.false_ne_true)]
      rw [List.filter_cons, if_pos (by exact hkk), List.filter_filter]
      simp
  · rcases hpos : listPosition (fun kv => kv.1.beq k) f with _ | p
    · rw [HeaderFields.insert_eq_of_none hpos, HeaderFields.append, List.filter_append]
      simp [hkk]
    · obtain ⟨pre, x, post, hf, hlen, hpre, hx⟩ := listPosition_eq_some _ _ _ hpos
      have hprefilter : pre.filter (fun kv => !(kv.1.beq k)) = pre :=
        List.filter_eq_self.mpr (fun y hy => by rw [hpre y hy]; rfl)
      rw [HeaderFields.insert_closed_form _ _ _ _ hpos]
      rw [hf]
      subst hlen
      rw [List.take_left, drop_append_cons]
      rw [List.filter_append, List.filter_append, hprefilter]
      rw [List.filter_cons, if_neg (by rw [hkk]; simp)]
      rw [List.filter_cons, if_neg (by rw [hx]; simp)]
      rw [List.filter_filter]
      simp
  · intro p hpos
    have hcf := HeaderFields.insert_closed_form f k v p hpos
    obtain ⟨pre, x, post, hf, hlen, hpre, hx⟩ := listPosition_eq_some _ _ _ hpos
    subst hf
    subst hlen
    refine ⟨hcf, ?_, ?_⟩
    all_goals
      rw [List.take_left, drop_append_cons] at hcf
    · rw [hcf, List.getElem?_append_right (Nat.le_refl _)]
      simp
    · rw [hcf, List.take_left, List.take_left]
  · intro hpos
    rw [HeaderFields.insert_eq_of_none hpos, HeaderFields.append]

/-- Witness for C5: inserting key `"a"` into `[("A", 1), ("b", 2)]` places
the new pair at position 0, where `"A"` (equal to `"a"` after ASCII
lowercasing) sat. -/
theorem claim_C5_witness :
    listPosition (fun kv => kv.1.beq (FieldName.new [0x61]))
        [(FieldName.new [0x41], (1 : Nat)), (FieldName.new [0x62], 2)] = some 0 ∧
    (HeaderFields.insert [(FieldName.new [0x41], (1 : Nat)), (FieldName.new [0x62], 2)]
        (FieldName.new [0x61]) 9)[0]? = some (FieldName.new [0x61], 9) :=
  ⟨by decide, ((claim_C5_header_fields _ _ _).2.2.2.1 0 (by decide)).2.1⟩

/-- C10: `FieldName` equality is exactly equality of the ASCII-lowercased
forms; `"H"` and `"h"` compare equal, while `"Ä"` (U+00C4) and `"ä"`
(U+00E4), which differ only in the case of a non-ASCII letter, compare
unequal, and `HeaderFields` lookup matches the former pair but not the
latter. -/
theorem claim_C10_fieldname_case :
    (∀ a b : List Nat, FieldName.beq (FieldName.new a) (FieldName.new b) = true ↔
        a.map asciiLowercaseChar = b.map asciiLowercaseChar) ∧
    FieldName.beq (FieldName.new [0x48]) (FieldName.new [0x68]) = true ∧
    FieldName.beq (FieldName.new [0xC4]) (FieldName.new [0xE4]) = false ∧
    (∀ v : Nat, HeaderFields.get [(FieldName.new [0x48], v)] (FieldName.new [0x68]) =
      some v) ∧
    (∀ v : Nat, HeaderFields.get [(FieldName.new [0xC4], v)] (FieldName.new [0xE4]) =
      none) := by
  refine ⟨?_, by decide, by decide, fun v => rfl, fun v => rfl⟩
  intro a b
  rw [FieldName.beq, FieldName.new, FieldName.new]
  exact beq_iff_eq

/-! ## UTF-8 codec lemmas (C2, C9) -/

/-- Inversion for a decoded char: re-encoding it restores exactly the
consumed bytes, the value is a Unicode scalar value, and at least one byte
was consumed. -/
theorem utf8Step_ch_spec (l : List Nat) (c : Nat) (rest : List Nat)
    (h : utf8Step l = .ch c rest) :
    utf8EncodeChar c ++ rest = l ∧ isValidScalar c ∧ rest.length < l.length := by
  cases l with
  | nil => exact Utf8Step.noConfusion h
  | cons b rest0 =>
    rw [utf8Step] at h
    by_cases h1 : b ≤ 0x7F
    · rw [if_pos h1] at h
      injection h with hc hrest
      subst hc
      subst hrest
      refine ⟨?_, Or.inl (by omega), by simp only [List.length_cons]; omega⟩
      rw [utf8EncodeChar, if_pos h1]
      simp
    · rw [if_neg h1] at h
      by_cases h2 : b < 0xC2
      · rw [if_pos h2] at h
        exact Utf8Step.noConfusion h
      · rw [if_neg h2] at h
        by_cases h3 : b ≤ 0xDF
        · rw [if_pos h3] at h
          cases rest0 with
          | nil => exact Utf8Step.noConfusion h
          | cons b2 rest2 =>
            rw [utf8StepTwo] at h
            by_cases hc2 : isUtf8Cont b2
            · rw [if_pos hc2] at h
              injection h with hc hrest
              subst hc
              subst hrest
              simp only [isUtf8Cont, Bool.and_eq_true, decide_eq_true_eq] at hc2
              refine ⟨?_, Or.inl (by omega), by simp only [List.length_cons]; omega⟩
              rw [utf8EncodeChar, if_neg (by omega), if_pos (by omega)]
              simp only [List.cons_append, List.nil_append, List.cons.injEq]
              refine ⟨by omega, by omega, trivial⟩
            · rw [if_neg hc2] at h
              exact Utf8Step.noConfusion h
        · rw [if_neg h3] at h
          by_cases h4 : b ≤ 0xEF
          · rw [if_pos h4] at h
            cases rest0 with
            | nil => exact Utf8Step.noConfusion h
            | cons b2 rest2 =>
              rw [utf8StepThree] at h
              by_cases hc2 : utf8ThreeByteSecondOk b b2
              · rw [if_pos hc2] at h
                cases rest2 with
                | nil => exact Utf8Step.noConfusion h
                | cons b3 rest3 =>
                  rw [utf8StepThreeTail] at h
                  by_cases hc3 : isUtf8Cont b3
                  · rw [if_pos hc3] at h
                    injection h with hc hrest
                    subst hc
                    subst hrest
                    simp only [utf8ThreeByteSecondOk, isUtf8Cont, Bool.and_eq_true,
                      Bool.or_eq_true, decide_eq_true_eq] at hc2 hc3
                    refine ⟨?_, ?_, by simp only [List.length_cons]; omega⟩
                    · rw [utf8EncodeChar, if_neg (by omega), if_neg (by omega),
                        if_pos (by omega)]
                      simp only [List.cons_append, List.nil_append, List.cons.injEq]
                      refine ⟨by omega, by omega, by omega, trivial⟩
                    · rw [isValidScalar]
                      omega
                  · rw [if_neg hc3] at h
                    exact Utf8Step.noConfusion h
              · rw [if_neg hc2] at h
                exact Utf8Step.noConfusion h
          · rw [if_neg h4] at h
            by_cases h5 : b ≤ 0xF4
            · rw [if_pos h5] at h
              cases rest0 with
              | nil => exact Utf8Step.noConfusion h
              | cons b2 rest2 =>
                rw [utf8StepFour] at h
                by_cases hc2 : utf8FourByteSecondOk b b2
                · rw [if_pos hc2] at h
                  cases rest2 with
                  | nil => exact Utf8Step.noConfusion h
                  | cons b3 rest3 =>
                    rw [utf8StepFourTail] at h
                    by_cases hc3 : isUtf8Cont b3
                    · rw [if_pos hc3] at h
                      cases rest3 with
                      | nil => exact Utf8Step.noConfusion h
                      | cons b4 rest4 =>
                        rw [utf8StepFourTail2] at h
                        by_cases hc4 : isUtf8Cont b4
                        · rw [if_pos hc4] at h
                          injection h with hc hrest
                          subst hc
                          subst hrest
                          simp only [utf8FourByteSecondOk, isUtf8Cont, Bool.and_eq_true,
                            Bool.or_eq_true, decide_eq_true_eq] at hc2 hc3 hc4
                          refine ⟨?_, ?_, by simp only [List.length_cons]; omega⟩
                          · rw [utf8EncodeChar, if_neg (by omega), if_neg (by omega),
                              if_neg (by omega)]
                            simp only [List.cons_append, List.nil_append, List.cons.injEq]
                            refine ⟨by omega, by omega, by omega, by omega, trivial⟩
                          · rw [isValidScalar]
                            omega
                        · rw [if_neg hc4] at h
                          exact Utf8Step.noConfusion h
                    · rw [if_neg hc3] at h
                      exact Utf8Step.noConfusion h
                · rw [if_neg hc2] at h
                  exact Utf8Step.noConfusion h
            · rw [if_neg h5] at h
              exact Utf8Step.noConfusion h

theorem utf8Step_empty_iff (l : List Nat) : utf8Step l = .empty ↔ l = [] := by
  cases l with
  | nil => simp [utf8Step]
  | cons b rest =>
    simp only [List.cons_ne_nil, iff_false]
    intro h
    rw [utf8Step] at h
    by_cases h1 : b ≤ 0x7F
    · rw [if_pos h1] at h; exact Utf8Step.noConfusion h
    · rw [if_neg h1] at h
      by_cases h2 : b < 0xC2
      · rw [if_pos h2] at h; exact Utf8Step.noConfusion h
      · rw [if_neg h2] at h
        by_cases h3 : b ≤ 0xDF
        · rw [if_pos h3] at h
          cases rest with
          | nil => rw [utf8StepTwo] at h; exact Utf8Step.noConfusion h
          | cons b2 rest2 =>
            rw [utf8StepTwo] at h
            by_cases hc : isUtf8Cont b2
            · rw [if_pos hc] at h; exact Utf8Step.noConfusion h
            · rw [if_neg hc] at h; exact Utf8Step.noConfusion h
        · rw [if_neg h3] at h
          by_cases h4 : b ≤ 0xEF
          · rw [if_pos h4] at h
            cases rest with
            | nil => rw [utf8StepThree] at h; exact Utf8Step.noConfusion h
            | cons b2 rest2 =>
              rw [utf8StepThree] at h
              by_cases hc : utf8ThreeByteSecondOk b b2
              · rw [if_pos hc] at h
                cases rest2 with
                | nil => rw [utf8StepThreeTail] at h; exact Utf8Step.noConfusion h
                | cons b3 rest3 =>
                  rw [utf8StepThreeTail] at h
                  by_cases hc3 : isUtf8Cont b3
                  · rw [if_pos hc3] at h; exact Utf8Step.noConfusion h
                  · rw [if_neg hc3] at h; exact Utf8Step.noConfusion h
              · rw [if_neg hc] at h; exact Utf8Step.noConfusion h
          · rw [if_neg h4] at h
            by_cases h5 : b ≤ 0xF4
            · rw [if_pos h5] at h
              cases rest with
              | nil => rw [utf8StepFour] at h; exact Utf8Step.noConfusion h
              | cons b2 rest2 =>
                rw [utf8StepFour] at h
                by_cases hc : utf8FourByteSecondOk b b2
                · rw [if_pos hc] at h
                  cases rest2 with
                  | nil => rw [utf8StepFourTail] at h; exact Utf8Step.noConfusion h
                  | cons b3 rest3 =>
                    rw [utf8StepFourTail] at h
                    by_cases hc3 : isUtf8Cont b3
                    · rw [if_pos hc3] at h
                      cases rest3 with
                      | nil => rw [utf8StepFourTail2] at h; exact Utf8Step.noConfusion h
                      | cons b4 rest4 =>
                        rw [utf8StepFourTail2] at h
                        by_cases hc4 : isUtf8Cont b4
                        · rw [if_pos hc4] at h; exact Utf8Step.noConfusion h
                        · rw [if_neg hc4] at h; exact Utf8Step.noConfusion h
                    · rw [if_neg hc3] at h; exact Utf8Step.noConfusion h
                · rw [if_neg hc] at h; exact Utf8Step.noConfusion h
            · rw [if_neg h5] at h; exact Utf8Step.noConfusion h

theorem rustFromUtf8Go_encode :
    ∀ (fuel : Nat) (l s : List Nat), l.length ≤ fuel →
      rustFromUtf8Go fuel l = some s → utf8Encode s = l := by
  intro fuel
  induction fuel with
  | zero =>
    intro l s hl h
    have hnil : l = [] := by
      cases l with
      | nil => rfl
      | cons b r => simp at hl
    subst hnil
    rw [rustFromUtf8Go] at h
    rw [show utf8Step [] = .empty from rfl] at h
    injection h with h
    subst h
    rfl
  | succ fuel ih =>
    intro l s hl h
    rw [rustFromUtf8Go] at h
    rcases hstep : utf8Step l with _ | ⟨c, rest⟩ | ⟨bad, rest⟩ | bad <;> rw [hstep] at h
    · injection h with h
      subst h
      rw [(utf8Step_empty_iff l).mp hstep]
      rfl
    · obtain ⟨henc, _, hlen⟩ := utf8Step_ch_spec l c rest hstep
      simp only at h
      obtain ⟨s2, hs2, hs2e⟩ := Option.map_eq_some'.mp h
      subst hs2e
      have := ih rest s2 (by omega) hs2
      rw [utf8Encode, List.map_cons, List.flatten_cons]
      rw [show (s2.map utf8EncodeChar).flatten = utf8Encode s2 from rfl, this, henc]
    · exact Option.noConfusion h
    · exact Option.noConfusion h

/-- Re-encoding a successfully decoded string restores the input bytes. -/
theorem rustFromUtf8_encode (l s : List Nat) (h : rustFromUtf8 l = some s) :
    utf8Encode s = l :=
  rustFromUtf8Go_encode l.length l s (Nat.le_refl _) h

/-- C9: constructing a `FieldValue` from any byte sequence and reading it
back with `as_bytes` is the identity: valid UTF-8 yields the Text variant
with the same bytes, anything else the Opaque variant holding the input
unchanged. -/
theorem claim_C9_fieldvalue_roundtrip (b : List Nat) :
    (FieldValue.from_bytes b).as_bytes = b ∧
    (∀ s, rustFromUtf8 b = some s →
      FieldValue.from_bytes b = FieldValue.Text s ∧ utf8Encode s = b) ∧
    (rustFromUtf8 b = none → FieldValue.from_bytes b = FieldValue.Opaque b) := by
  refine ⟨?_, ?_, ?_⟩
  · rw [FieldValue.from_bytes]
    rcases hd : rustFromUtf8 b with _ | s
    · rfl
    · simp only [FieldValue.as_bytes]
      exact rustFromUtf8_encode b s hd
  · intro s hs
    rw [FieldValue.from_bytes, hs]
    exact ⟨rfl, rustFromUtf8_encode b s hs⟩
  · intro hn
    rw [FieldValue.from_bytes, hn]

/-- Witness for C9 at concrete inputs: `"A\xC3\xA9"` (valid UTF-8 for
`"Aé"`) becomes Text and round-trips; `"A\x80"` (invalid) becomes Opaque
and round-trips. -/
theorem claim_C9_witness :
    (FieldValue.from_bytes [0x41, 0x80]).as_bytes = [0x41, 0x80] ∧
    rustFromUtf8 [0x41, 0xC3, 0xA9] = some [0x41, 0xE9] ∧
    FieldValue.from_bytes [0x41, 0xC3, 0xA9] = FieldValue.Text [0x41, 0xE9] ∧
    utf8Encode [0x41, 0xE9] = [0x41, 0xC3, 0xA9] ∧
    FieldValue.from_bytes [0x41, 0x80] = FieldValue.Opaque [0x41, 0x80] := by
  have h1 := (claim_C9_fieldvalue_roundtrip [0x41, 0x80]).1
  have h2 := (claim_C9_fieldvalue_roundtrip [0x41, 0xC3, 0xA9]).2.1 [0x41, 0xE9] (by rfl)
  have h3 := (claim_C9_fieldvalue_roundtrip [0x41, 0x80]).2.2 (by rfl)
  exact ⟨h1, rfl, h2.1, h2.2, h3⟩

/-- C2 fails on the code: a trailing truncated multi-byte sequence (here
the lone leading byte 0xC2) makes `std::str::from_utf8` report
`error_len = None`, and `parse_utf8_escaped` then breaks out of its loop
without escaping those bytes, so decoding the encoding of `[0xC2]` yields
`[]`, not `[0xC2]`.  The remaining conjuncts check the model against the
concrete expectations of the source's own unit tests (interior invalid
byte, and a literal escape-marker character in valid text). -/
theorem claim_C2_trailing_incomplete :
    parse_utf8_escaped [0xC2] = [] ∧
    utf8_escaped_to_bytes (parse_utf8_escaped [0xC2]) = [] ∧
    ([] : List Nat) ≠ [0xC2] ∧
    parse_utf8_escaped [0x5F, 0x80, 0x5F] = [0x5F, 0xFFFD, 0xE0170, 0x5F] ∧
    utf8_escaped_to_bytes [0x5F, 0xFFFD, 0xE0170, 0x5F] = [0x5F, 0x80, 0x5F] ∧
    parse_utf8_escaped [0x5F, 0xEF, 0xBF, 0xBD, 0x5F] =
      [0x5F, 0xFFFD, 0xE007F, 0x5F] ∧
    utf8_escaped_to_bytes [0x5F, 0xFFFD, 0xE007F, 0x5F] =
      [0x5F, 0xEF, 0xBF, 0xBD, 0x5F] := by
  refine ⟨rfl, rfl, by decide, by decide, by decide, by decide, by decide⟩

/-! ## Callback state machine theorems (C8, C1) -/

/-- C8: the download-content callback always emits exactly one
content-received event carrying the delivered bytes, and reports the full
delivered length as consumed unless the session is aborted afterwards
(because it was already aborted, the handler called abort, or the handler
returned an error from the emitted event), in which case it reports zero
consumed. -/
theorem claim_C8_write_function {σ ε ρ π τ : Type} (E : SessionEnv σ ε ρ π τ)
    (cb : CallbackHandler σ ε) (data : List Nat) :
    (write_function E cb data).2.2 = [SessionEvent.ContentReceived data] ∧
    ((write_function E cb data).1.aborted = false →
      (write_function E cb data).2.1 = data.length) ∧
    ((write_function E cb data).1.aborted = true →
      (write_function E cb data).2.1 = 0) ∧
    (cb.aborted = true →
      (write_function E cb data).1.aborted = true ∧
      (write_function E cb data).2.1 = 0) ∧
    (∀ e, (E.event cb.handler (SessionEvent.ContentReceived data)).2.2 = some e →
      (write_function E cb data).1.aborted = true ∧
      (write_function E cb data).2.1 = 0 ∧
      (write_function E cb data).1.error = some e) := by
  rcases hev : E.event cb.handler (SessionEvent.ContentReceived data) with ⟨h2, ab, err⟩
  cases err with
  | none =>
    by_cases hab : (cb.aborted || ab) = true
    · simp [write_function, handle_receive_content, callEvent, hev, optToExcept,
        captureError, hab]
    · have hab2 : cb.aborted = false ∧ ab = false := by
        revert hab
        cases cb.aborted <;> cases ab <;> simp
      simp [write_function, handle_receive_content, callEvent, hev, optToExcept,
        captureError, hab2.1, hab2.2]
  | some e =>
    simp [write_function, handle_receive_content, callEvent, hev, optToExcept,
      captureError]

/-- C1 fails on the code: when the handler has errored (the retained error
is 7) but the transport call itself also returns an error (42), `wait`'s
result is the transport error, not the handler error — `result?` runs
before the retained error is examined. -/
theorem claim_C1_counterexample :
    (runCallbacks alwaysFailEnv (CallbackHandler.new () SessionMode.Http)
      [TransportCallback.WriteFunction [1]]).error = some 7 ∧
    perform_with_callbacks alwaysFailEnv () SessionMode.Http
      [TransportCallback.WriteFunction [1]] (Except.error 42) =
      ((), Except.error (SessionError.transport 42)) ∧
    Except.error (SessionError.transport 42) ≠
      (Except.error (SessionError.handler 7) : Except (SessionError Nat Nat) Unit) := by
  refine ⟨rfl, rfl, ?_⟩
  intro h
  exact SessionError.noConfusion (Except.error.inj h)

/-- C1 amended: the handler is always returned to the caller; the retained
handler error is the session's final result exactly when the transport call
itself returns success; a transport-level error takes precedence and is
returned instead. -/
theorem claim_C1_amended {σ ε ρ π τ χ : Type} (E : SessionEnv σ ε ρ π τ)
    (handler₀ : σ) (mode : SessionMode) (script : List TransportCallback)
    (transportResult : Except χ Unit) :
    (perform_with_callbacks E handler₀ mode script transportResult).1 =
      (runCallbacks E (CallbackHandler.new handler₀ mode) script).handler ∧
    (∀ te, transportResult = Except.error te →
      (perform_with_callbacks E handler₀ mode script transportResult).2 =
        Except.error (SessionError.transport te)) ∧
    (transportResult = Except.ok () →
      ∀ e, (runCallbacks E (CallbackHandler.new handler₀ mode) script).error = some e →
        (perform_with_callbacks E handler₀ mode script transportResult).2 =
          Except.error (SessionError.handler e)) ∧
    (transportResult = Except.ok () →
      (runCallbacks E (CallbackHandler.new handler₀ mode) script).error = none →
        (perform_with_callbacks E handler₀ mode script transportResult).2 =
          Except.ok ()) := by
  refine ⟨rfl, ?_, ?_, ?_⟩
  · rintro te rfl
    rfl
  · rintro rfl e herr
    simp [perform_with_callbacks, herr]
  · rintro rfl herr
    simp [perform_with_callbacks, herr]

/-- Witness for C1 amended: with an always-erroring handler and a
transport call that returns success, the session's final result is the
handler's error. -/
theorem claim_C1_amended_witness :
    (perform_with_callbacks alwaysFailEnv () SessionMode.Http
      [TransportCallback.WriteFunction [1]] (Except.ok () : Except Nat Unit)).2 =
      Except.error (SessionError.handler 7) :=
  (claim_C1_amended alwaysFailEnv () SessionMode.Http
    [TransportCallback.WriteFunction [1]] (Except.ok () : Except Nat Unit)).2.2.1 rfl 7 rfl

/-- Witness for C8: with an already-aborted session the write callback
still emits the event and reports zero consumed; with an erroring handler
it aborts, stores the error, and reports zero consumed. -/
theorem claim_C8_witness :
    (write_function alwaysFailEnv
        { handler := (), aborted := false, state := CallbackState.Ftp, error := none,
          receive_buf := [], send_buf := [] } [1, 2, 3]).2.2 =
      [SessionEvent.ContentReceived [1, 2, 3]] ∧
    (write_function alwaysFailEnv
        { handler := (), aborted := false, state := CallbackState.Ftp, error := none,
          receive_buf := [], send_buf := [] } [1, 2, 3]).1.aborted = true ∧
    (write_function alwaysFailEnv
        { handler := (), aborted := false, state := CallbackState.Ftp, error := none,
          receive_buf := [], send_buf := [] } [1, 2, 3]).2.1 = 0 ∧
    (write_function alwaysFailEnv
        { handler := (), aborted := false, state := CallbackState.Ftp, error := none,
          receive_buf := [], send_buf := [] } [1, 2, 3]).1.error = some 7 := by
  have h := claim_C8_write_function alwaysFailEnv
    { handler := (), aborted := false, state := CallbackState.Ftp, error := none,
      receive_buf := [], send_buf := [] } [1, 2, 3]
  have h5 := h.2.2.2.2 7 rfl
  exact ⟨h.1, h5.1, h5.2.1, h5.2.2⟩

/-- Everything C7 needs about `handle_send_header`: the state is unchanged
or advances `HttpRequest → HttpResponse`; with the request state and no
error, the advance happens exactly when the accumulated request bytes
contain a boundary; and an advance is accompanied by a successful parse
and the emission of the parsed-request event. -/
theorem handle_send_header_spec {σ ε ρ π τ : Type} (E : SessionEnv σ ε ρ π τ)
    (cb : CallbackHandler σ ε) (data : List Nat) :
    ((handle_send_header E cb data).1.state = cb.state ∨
      (cb.state = CallbackState.HttpRequest ∧
       (handle_send_header E cb data).1.state = CallbackState.HttpResponse ∧
       scan_header_boundary (cb.send_buf ++ data) ≠ none)) ∧
    (cb.state = CallbackState.HttpRequest →
      (handle_send_header E cb data).2.1 = Except.ok () →
      ((handle_send_header E cb data).1.state = CallbackState.HttpResponse ↔
        scan_header_boundary (cb.send_buf ++ data) ≠ none)) ∧
    ((handle_send_header E cb data).1.state ≠ cb.state →
      ∃ header, E.parseRequest (cb.send_buf ++ data) = Except.ok header ∧
        (handle_send_header E cb data).2.2 =
          [SessionEvent.HeaderSent data, SessionEvent.HttpRequest data header]) := by
  rcases hev : E.event cb.handler (SessionEvent.HeaderSent data) with ⟨h2, ab, err⟩
  cases err with
  | some e => simp [handle_send_header, callEvent, hev]
  | none =>
    by_cases hst : cb.state = CallbackState.HttpRequest
    · rcases hscan : scan_header_boundary (cb.send_buf ++ data) with _ | idx
      · simp [handle_send_header, callEvent, hev, hst, hscan]
      · rcases hparse : E.parseRequest (cb.send_buf ++ data) with e | header
        · simp [handle_send_header, callEvent, hev, hst, hscan, hparse]
        · rcases hev2 : E.event h2 (SessionEvent.HttpRequest data header) with ⟨h3, ab2, err2⟩
          cases err2 with
          | some e2 =>
            simp [handle_send_header, callEvent, hev, hst, hscan, hparse, hev2]
          | none =>
            simp [handle_send_header, callEvent, hev, hst, hscan, hparse, hev2]
    · simp [handle_send_header, callEvent, hev, hst]

/-- Everything C7 needs about `handle_receive_header`: the state is
unchanged or advances `HttpResponse → HttpResponseTrailer` or
`HttpResponseTrailer → Finished`; in those states, with no error, the
advance happens exactly when the accumulated response bytes contain a
boundary; and an advance is accompanied by a successful parse and the
emission of the corresponding parsed event. -/
theorem handle_receive_header_spec {σ ε ρ π τ : Type} (E : SessionEnv σ ε ρ π τ)
    (cb : CallbackHandler σ ε) (data : List Nat) :
    ((handle_receive_header E cb data).1.state = cb.state ∨
      (cb.state = CallbackState.HttpResponse ∧
       (handle_receive_header E cb data).1.state = CallbackState.HttpResponseTrailer ∧
       scan_header_boundary (cb.receive_buf ++ data) ≠ none) ∨
      (cb.state = CallbackState.HttpResponseTrailer ∧
       (handle_receive_header E cb data).1.state = CallbackState.Finished ∧
       scan_header_boundary (cb.receive_buf ++ data) ≠ none)) ∧
    (cb.state = CallbackState.HttpResponse →
      (handle_receive_header E cb data).2.1 = Except.ok () →
      ((handle_receive_header E cb data).1.state = CallbackState.HttpResponseTrailer ↔
        scan_header_boundary (cb.receive_buf ++ data) ≠ none)) ∧
    (cb.state = CallbackState.HttpResponseTrailer →
      (handle_receive_header E cb data).2.1 = Except.ok () →
      ((handle_receive_header E cb data).1.state = CallbackState.Finished ↔
        scan_header_boundary (cb.receive_buf ++ data) ≠ none)) ∧
    ((handle_receive_header E cb data).1.state ≠ cb.state →
      (∃ header, E.parseResponse (cb.receive_buf ++ data) = Except.ok header ∧
        (handle_receive_header E cb data).2.2 =
          [SessionEvent.HeaderReceived data, SessionEvent.HttpResponse data header]) ∨
      (∃ trailer, E.parseTrailer (cb.receive_buf ++ data) = Except.ok trailer ∧
        (handle_receive_header E cb data).2.2 =
          [SessionEvent.HeaderReceived data,
            SessionEvent.HttpResponseTrailer data trailer])) := by
  rcases hev : E.event cb.handler (SessionEvent.HeaderReceived data) with ⟨h2, ab, err⟩
  cases err with
  | some e => simp [handle_receive_header, callEvent, hev]
  | none =>
    by_cases hst : cb.state = CallbackState.HttpResponse
    · rcases hscan : scan_header_boundary (cb.receive_buf ++ data) with _ | idx
      · simp [handle_receive_header, callEvent, hev, hst, hscan]
      · rcases hparse : E.parseResponse (cb.receive_buf ++ data) with e | header
        · simp [handle_receive_header, callEvent, hev, hst, hscan, hparse]
        · rcases hev2 : E.event h2 (SessionEvent.HttpResponse data header) with ⟨h3, ab2, err2⟩
          cases err2 with
          | some e2 =>
            simp [handle_receive_header, callEvent, hev, hst, hscan, hparse, hev2]
          | none =>
            simp [handle_receive_header, callEvent, hev, hst, hscan, hparse, hev2]
    · by_cases hst2 : cb.state = CallbackState.HttpResponseTrailer
      · rcases hscan : scan_header_boundary (cb.receive_buf ++ data) with _ | idx
        · simp [handle_receive_header, callEvent, hev, hst, hst2, hscan]
        · rcases hparse : E.parseTrailer (cb.receive_buf ++ data) with e | trailer
          · simp [handle_receive_header, callEvent, hev, hst, hst2, hscan, hparse]
          · rcases hev2 : E.event h2 (SessionEvent.HttpResponseTrailer data trailer) with
              ⟨h3, ab2, err2⟩
            cases err2 with
            | some e2 =>
              simp [handle_receive_header, callEvent, hev, hst, hst2, hscan, hparse, hev2]
            | none =>
              simp [handle_receive_header, callEvent, hev, hst, hst2, hscan, hparse, hev2]
      · simp [handle_receive_header, callEvent, hev, hst, hst2]

/-- In the FTP state, no transport callback whatsoever changes the state or
the header buffers, and no parsed-header event is ever emitted. -/
theorem runCallback_ftp {σ ε ρ π τ : Type} (E : SessionEnv σ ε ρ π τ)
    (cb : CallbackHandler σ ε) (hftp : cb.state = CallbackState.Ftp)
    (c : TransportCallback) :
    (runCallback E cb c).1.state = CallbackState.Ftp ∧
    (runCallback E cb c).1.send_buf = cb.send_buf ∧
    (runCallback E cb c).1.receive_buf = cb.receive_buf ∧
    ∀ ev ∈ (runCallback E cb c).2, isParsedHeaderEvent ev = false := by
  cases c with
  | Text data =>
    rcases haddr : E.parse_connect_address data with _ | addr
    · simp [runCallback, handle_curl_log, haddr, captureError, hftp]
    · rcases hev : E.event cb.handler (SessionEvent.Connected addr) with ⟨h2, ab, err⟩
      cases err <;>
        simp [runCallback, handle_curl_log, haddr, callEvent, hev, optToExcept,
          captureError, hftp, isParsedHeaderEvent]
  | HeaderIn data => simp [runCallback, hftp]
  | HeaderOut data =>
    rcases hev : E.event cb.handler (SessionEvent.HeaderSent data) with ⟨h2, ab, err⟩
    cases err <;>
      simp [runCallback, handle_send_header, callEvent, hev, captureError, hftp,
        isParsedHeaderEvent]
  | DataIn data =>
    rcases hev : E.event cb.handler (SessionEvent.BodyReceived data) with ⟨h2, ab, err⟩
    cases err <;>
      simp [runCallback, handle_receive_body, callEvent, hev, optToExcept, captureError,
        hftp, isParsedHeaderEvent]
  | DataOut data =>
    rcases hev : E.event cb.handler (SessionEvent.BodySent data) with ⟨h2, ab, err⟩
    cases err <;>
      simp [runCallback, handle_send_body, callEvent, hev, optToExcept, captureError,
        hftp, isParsedHeaderEvent]
  | HeaderFunction data =>
    rcases hev : E.event cb.handler (SessionEvent.HeaderReceived data) with ⟨h2, ab, err⟩
    cases err <;>
      simp [runCallback, header_function, handle_receive_header, callEvent, hev,
        captureError, hftp, isParsedHeaderEvent]
  | ProgressFunction dt dc ut uc =>
    rcases hev : E.event cb.handler (SessionEvent.Progress dt dc ut uc) with ⟨h2, ab, err⟩
    cases err <;>
      simp [runCallback, progress_function, handle_progress, callEvent, hev, optToExcept,
        captureError, hftp, isParsedHeaderEvent]
  | ReadFunction bufSize =>
    rcases hu : E.upload_content cb.handler bufSize with ⟨h2, ab, r⟩
    cases r with
    | error e =>
      simp [runCallback, read_function, handle_send_content, hu, hftp]
    | ok filled =>
      rcases hev : E.event h2 (SessionEvent.ContentSent filled) with ⟨h3, ab2, err2⟩
      cases err2 <;>
        simp [runCallback, read_function, handle_send_content, hu, callEvent, hev,
          captureError, hftp, isParsedHeaderEvent] <;>
        split <;> simp [hftp]
  | WriteFunction data =>
    rcases hev : E.event cb.handler (SessionEvent.ContentReceived data) with ⟨h2, ab, err⟩
    cases err <;>
      simp [runCallback, write_function, handle_receive_content, callEvent, hev,
        optToExcept, captureError, hftp, isParsedHeaderEvent]

/-- C7: in HTTP mode the state only ever advances along
`HttpRequest → HttpResponse → HttpResponseTrailer → Finished`, each
transition happening exactly when `scan_header_boundary` finds a boundary
in the bytes accumulated for the current state (given that the handler and
the parser did not fail the callback), with the corresponding parsed event
emitted at that moment; in FTP mode no callback changes the state or the
header buffers and no parsed event is ever emitted. -/
theorem claim_C7_state_machine {σ ε ρ π τ : Type} (E : SessionEnv σ ε ρ π τ)
    (cb : CallbackHandler σ ε) (data : List Nat) :
    ((handle_send_header E cb data).1.state = cb.state ∨
      (cb.state = CallbackState.HttpRequest ∧
       (handle_send_header E cb data).1.state = CallbackState.HttpResponse ∧
       scan_header_boundary (cb.send_buf ++ data) ≠ none)) ∧
    (cb.state = CallbackState.HttpRequest →
      (handle_send_header E cb data).2.1 = Except.ok () →
      ((handle_send_header E cb data).1.state = CallbackState.HttpResponse ↔
        scan_header_boundary (cb.send_buf ++ data) ≠ none)) ∧
    ((handle_send_header E cb data).1.state ≠ cb.state →
      ∃ header, E.parseRequest (cb.send_buf ++ data) = Except.ok header ∧
        (handle_send_header E cb data).2.2 =
          [SessionEvent.HeaderSent data, SessionEvent.HttpRequest data header]) ∧
    ((handle_receive_header E cb data).1.state = cb.state ∨
      (cb.state = CallbackState.HttpResponse ∧
       (handle_receive_header E cb data).1.state = CallbackState.HttpResponseTrailer ∧
       scan_header_boundary (cb.receive_buf ++ data) ≠ none) ∨
      (cb.state = CallbackState.HttpResponseTrailer ∧
       (handle_receive_header E cb data).1.state = CallbackState.Finished ∧
       scan_header_boundary (cb.receive_buf ++ data) ≠ none)) ∧
    (cb.state = CallbackState.HttpResponse →
      (handle_receive_header E cb data).2.1 = Except.ok () →
      ((handle_receive_header E cb data).1.state = CallbackState.HttpResponseTrailer ↔
        scan_header_boundary (cb.receive_buf ++ data) ≠ none)) ∧
    (cb.state = CallbackState.HttpResponseTrailer →
      (handle_receive_header E cb data).2.1 = Except.ok () →
      ((handle_receive_header E cb data).1.state = CallbackState.Finished ↔
        scan_header_boundary (cb.receive_buf ++ data) ≠ none)) ∧
    ((handle_receive_header E cb data).1.state ≠ cb.state →
      (∃ header, E.parseResponse (cb.receive_buf ++ data) = Except.ok header ∧
        (handle_receive_header E cb data).2.2 =
          [SessionEvent.HeaderReceived data, SessionEvent.HttpResponse data header]) ∨
      (∃ trailer, E.parseTrailer (cb.receive_buf ++ data) = Except.ok trailer ∧
        (handle_receive_header E cb data).2.2 =
          [SessionEvent.HeaderReceived data,
            SessionEvent.HttpResponseTrailer data trailer])) ∧
    (cb.state = CallbackState.Ftp → ∀ c : TransportCallback,
      (runCallback E cb c).1.state = CallbackState.Ftp ∧
      (runCallback E cb c).1.send_buf = cb.send_buf ∧
      (runCallback E cb c).1.receive_buf = cb.receive_buf ∧
      ∀ ev ∈ (runCallback E cb c).2, isParsedHeaderEvent ev = false) := by
  obtain ⟨hs1, hs2, hs3⟩ := handle_send_header_spec E cb data
  obtain ⟨hr1, hr2, hr3, hr4⟩ := handle_receive_header_spec E cb data
  exact ⟨hs1, hs2, hs3, hr1, hr2, hr3, hr4, fun hftp c => runCallback_ftp E cb hftp c⟩

/-- Witness for C7: from the initial HTTP state, an outbound header chunk
consisting of a lone newline contains a boundary, so the state advances to
`HttpResponse`. -/
theorem claim_C7_witness :
    (handle_send_header alwaysOkEnv
      (CallbackHandler.new () SessionMode.Http) [0x0A]).1.state =
      CallbackState.HttpResponse :=
  ((claim_C7_state_machine alwaysOkEnv
      (CallbackHandler.new () SessionMode.Http) [0x0A]).2.1 rfl rfl).mpr (by decide)

end Wrecv
